import Mathlib

set_option autoImplicit false

/-!
Verification model of the goodCup coffee-brewing app.

The repository stores JSON documents (brews, beans, equipment, default
pointers, API key) under fixed keys of an on-device key-value store, and
wraps an external chat-completion API with prompt construction and a
lenient response-decoding chain.  This file gives a shallow embedding of
the string heuristics of the OpenAI wrapper module, of the persistence
round trip, and of the equipment/default-pointer bookkeeping, and proves
the documented properties about them.

JavaScript strings are modelled as lists of characters.  The host
builtins JSON.stringify and JSON.parse (invoked by the source but not
part of the repository) are modelled by an executable serializer and
recursive-descent parser over a JSON value type whose numbers are
integers; every numeric field the app persists is an integer.
-/

namespace GoodCup

/-- JavaScript strings, modelled as lists of characters. -/
abbrev JStr := List Char

/-- Shorthand turning a Lean string literal into a modelled JS string. -/
def jstr (s : String) : JStr := s.data

/-- Whitespace accepted between JSON tokens (ECMA-404: space, tab, LF, CR). -/
def jsonWs (c : Char) : Bool := c = ' ' || c = '\t' || c = '\n' || c = '\r'

/-- Whitespace for the JS String.trim and the regex class \s (the common
characters; exotic Unicode space code points are not modelled). -/
def jsWs (c : Char) : Bool :=
  c = ' ' || c = '\t' || c = '\n' || c = '\r' || c = '\x0b' || c = '\x0c'

/-- Model of JS String.prototype.trim: strip whitespace from both ends. -/
def jsTrim (s : JStr) : JStr :=
  ((s.dropWhile jsWs).reverse.dropWhile jsWs).reverse

/-- Whether the pattern occurs in s starting at index i. -/
def occursAt (s pat : JStr) (i : Nat) : Bool :=
  pat.isPrefixOf (s.drop i)

/-- Scan indices m, m-1, ..., 0 and return the first index where the
pattern occurs (hence the greatest such index overall when m = s.length). -/
def lastIdxAux (s pat : JStr) : Nat → Option Nat
  | 0 => if occursAt s pat 0 then some 0 else none
  | i + 1 => if occursAt s pat (i + 1) then some (i + 1) else lastIdxAux s pat i

/-- Model of JS String.prototype.lastIndexOf for a non-empty pattern:
none plays the role of the JS result -1. -/
def jsLastIndexOf (s pat : JStr) : Option Nat :=
  lastIdxAux s pat s.length

/-- Model of JS String.prototype.includes. -/
def jsIncludes (s pat : JStr) : Bool :=
  (List.range (s.length + 1)).any (occursAt s pat)

/-- Model of JS String.prototype.endsWith for a single character. -/
def endsWithChar (s : JStr) (c : Char) : Bool :=
  match s.getLast? with
  | some d => d = c
  | none => false

/-- Model of JS String.prototype.toLowerCase (character-wise; the locale
and multi-character Unicode mappings are not modelled). -/
def jsLower (s : JStr) : JStr := s.map Char.toLower

/-! ### Model of the host JSON builtins

JSON.stringify / JSON.parse are host builtins used by the source for every
persisted document and for the model responses.  They are modelled over
the following value type.  Restrictions of the model, each irrelevant to
the data the app produces: numbers are integers (no fraction or exponent
syntax), object member order is significant and duplicate keys are kept
as written, and escaped lone surrogates are rejected. -/

inductive Json where
  | null : Json
  | bool (b : Bool) : Json
  | num (n : Int) : Json
  | str (s : JStr) : Json
  | arr (elems : List Json) : Json
  | obj (members : List (JStr × Json)) : Json

/-- Decimal digit character for d < 10. -/
def digitCh (d : Nat) : Char := Char.ofNat (48 + d)

/-- Decimal digits of a natural number, most significant first. -/
def natChars (n : Nat) : JStr :=
  if n = 0 then ['0'] else (Nat.digits 10 n).reverse.map digitCh

/-- Decimal rendering of an integer, as JSON.stringify prints one. -/
def intChars (i : Int) : JStr :=
  if i < 0 then '-' :: natChars i.natAbs else natChars i.natAbs

/-- Lowercase hexadecimal digit character for d < 16. -/
def hexCh (d : Nat) : Char :=
  if d < 10 then Char.ofNat (48 + d) else Char.ofNat (87 + d)

/-- JSON.stringify's escaping of one string character: quote, backslash
and the five short control escapes get two-character escapes, the other
control characters get a unicode escape, everything else is emitted raw. -/
def escapeChar (c : Char) : JStr :=
  if c = '"' then ['\\', '"']
  else if c = '\\' then ['\\', '\\']
  else if c = '\x08' then ['\\', 'b']
  else if c = '\t' then ['\\', 't']
  else if c = '\n' then ['\\', 'n']
  else if c = '\x0c' then ['\\', 'f']
  else if c = '\r' then ['\\', 'r']
  else if c.toNat < 32 then
    ['\\', 'u', '0', '0', hexCh (c.toNat / 16), hexCh (c.toNat % 16)]
  else [c]

/-- Escape every character of a string body. -/
def escapeChars : JStr → JStr
  | [] => []
  | c :: s => escapeChar c ++ escapeChars s

mutual

/-- Model of JSON.stringify with no spacing argument, as the source calls it. -/
def stringify : Json → JStr
  | .null => jstr "null"
  | .bool true => jstr "true"
  | .bool false => jstr "false"
  | .num n => intChars n
  | .str s => '"' :: (escapeChars s ++ ['"'])
  | .arr xs => '[' :: (stringifyItems xs ++ [']'])
  | .obj ms => '{' :: (stringifyMembers ms ++ ['}'])

/-- Comma-separated renderings of array elements. -/
def stringifyItems : List Json → JStr
  | [] => []
  | [x] => stringify x
  | x :: xs => stringify x ++ ',' :: stringifyItems xs

/-- Comma-separated renderings of object members. -/
def stringifyMembers : List (JStr × Json) → JStr
  | [] => []
  | [(k, v)] => '"' :: (escapeChars k ++ '"' :: ':' :: stringify v)
  | (k, v) :: ms =>
    ('"' :: (escapeChars k ++ '"' :: ':' :: stringify v)) ++ ',' :: stringifyMembers ms

end

/-- Hexadecimal digit value of a character, if it is one. -/
def hexVal (c : Char) : Option Nat :=
  if 48 ≤ c.toNat ∧ c.toNat ≤ 57 then some (c.toNat - 48)
  else if 97 ≤ c.toNat ∧ c.toNat ≤ 102 then some (c.toNat - 87)
  else if 65 ≤ c.toNat ∧ c.toNat ≤ 70 then some (c.toNat - 55)
  else none

/-- Prepend a decoded character to the result of parsing the rest of a
string body. -/
def consStr (c : Char) (o : Option (JStr × JStr)) : Option (JStr × JStr) :=
  o.map (fun p => (c :: p.1, p.2))

/-- Parse the body of a JSON string after its opening quote, up to and
including the closing quote; returns the decoded body and the rest.
Escaped lone surrogates are rejected (a model restriction). -/
def parseStrBody : JStr → Option (JStr × JStr)
  | [] => none
  | c :: r =>
    if c = '"' then some ([], r)
    else if c = '\\' then
      match r with
      | [] => none
      | e :: r2 =>
        if e = '"' then consStr '"' (parseStrBody r2)
        else if e = '\\' then consStr '\\' (parseStrBody r2)
        else if e = '/' then consStr '/' (parseStrBody r2)
        else if e = 'b' then consStr '\x08' (parseStrBody r2)
        else if e = 'f' then consStr '\x0c' (parseStrBody r2)
        else if e = 'n' then consStr '\n' (parseStrBody r2)
        else if e = 'r' then consStr '\r' (parseStrBody r2)
        else if e = 't' then consStr '\t' (parseStrBody r2)
        else if e = 'u' then
          match r2 with
          | h1 :: h2 :: h3 :: h4 :: r3 =>
            match hexVal h1, hexVal h2, hexVal h3, hexVal h4 with
            | some a, some b, some hc, some d =>
              if 4096 * a + 256 * b + 16 * hc + d < 55296 then
                consStr (Char.ofNat (4096 * a + 256 * b + 16 * hc + d)) (parseStrBody r3)
              else none
            | _, _, _, _ => none
          | _ => none
        else none
    else if c.toNat < 32 then none
    else consStr c (parseStrBody r)

/-- Decimal digit test, equivalent to the usual one but phrased on the
code point. -/
def isDigitCh (c : Char) : Bool := 48 ≤ c.toNat && c.toNat ≤ 57

/-- Numeric value of a run of decimal digit characters, most significant
first. -/
def digitsVal (cs : JStr) : Nat :=
  cs.foldl (fun a c => 10 * a + (c.toNat - 48)) 0

/-- Parse a maximal non-empty run of decimal digits. -/
def parseNat (s : JStr) : Option (Nat × JStr) :=
  let ds := s.takeWhile isDigitCh
  if ds.isEmpty then none else some (digitsVal ds, s.dropWhile isDigitCh)

/-- Drop JSON inter-token whitespace. -/
def skipWs (s : JStr) : JStr := s.dropWhile jsonWs

/-- Consume an expected literal. -/
def expectChars (lit s : JStr) : Option JStr :=
  if lit.isPrefixOf s then some (s.drop lit.length) else none

mutual

/-- Parse one JSON value (fuel-indexed recursive descent). -/
def parseVal : Nat → JStr → Option (Json × JStr)
  | 0, _ => none
  | f + 1, s =>
    match skipWs s with
    | [] => none
    | c :: r =>
      if c = 'n' then (expectChars (jstr "ull") r).map (fun r1 => (Json.null, r1))
      else if c = 't' then (expectChars (jstr "rue") r).map (fun r1 => (Json.bool true, r1))
      else if c = 'f' then (expectChars (jstr "alse") r).map (fun r1 => (Json.bool false, r1))
      else if c = '"' then
        match parseStrBody r with
        | some (cs, r1) => some (.str cs, r1)
        | none => none
      else if c = '[' then
        match skipWs r with
        | [] => none
        | c1 :: r1 =>
          if c1 = ']' then some (.arr [], r1)
          else
            match parseItems f (c1 :: r1) with
            | some (vs, r2) => some (.arr vs, r2)
            | none => none
      else if c = '{' then
        match skipWs r with
        | [] => none
        | c1 :: r1 =>
          if c1 = '}' then some (.obj [], r1)
          else
            match parseMembers f (c1 :: r1) with
            | some (ms, r2) => some (.obj ms, r2)
            | none => none
      else if c = '-' then
        match parseNat r with
        | some (n, r1) => some (.num (-(n : Int)), r1)
        | none => none
      else if isDigitCh c then
        match parseNat (c :: r) with
        | some (n, r1) => some (.num (n : Int), r1)
        | none => none
      else none

/-- Parse the elements of a non-empty JSON array after its opening
bracket, up to and including the closing bracket. -/
def parseItems : Nat → JStr → Option (List Json × JStr)
  | 0, _ => none
  | f + 1, s =>
    match parseVal f s with
    | some (v, r) =>
      match skipWs r with
      | ',' :: r1 => (parseItems f r1).map (fun p => (v :: p.1, p.2))
      | ']' :: r1 => some ([v], r1)
      | _ => none
    | none => none

/-- Parse the members of a non-empty JSON object after its opening
brace, up to and including the closing brace. -/
def parseMembers : Nat → JStr → Option (List (JStr × Json) × JStr)
  | 0, _ => none
  | f + 1, s =>
    match skipWs s with
    | '"' :: r =>
      match parseStrBody r with
      | some (k, r1) =>
        match skipWs r1 with
        | ':' :: r2 =>
          match parseVal f r2 with
          | some (v, r3) =>
            match skipWs r3 with
            | ',' :: r4 => (parseMembers f r4).map (fun p => ((k, v) :: p.1, p.2))
            | '}' :: r4 => some ([(k, v)], r4)
            | _ => none
          | none => none
        | _ => none
      | none => none
    | _ => none

end

/-- Model of JSON.parse: parse one value, allow surrounding whitespace,
require the whole input to be consumed; none models a thrown SyntaxError. -/
def parseJson (s : JStr) : Option Json :=
  match parseVal (s.length + 1) s with
  | some (v, r) => if (skipWs r).isEmpty then some v else none
  | none => none

mutual

/-- Fuel needed by parseVal to parse this value from its rendering. -/
def jsize : Json → Nat
  | .null => 1
  | .bool _ => 1
  | .num _ => 1
  | .str _ => 1
  | .arr xs => 1 + jsizeItems xs
  | .obj ms => 1 + jsizeMembers ms

/-- Fuel needed by parseItems for these array elements. -/
def jsizeItems : List Json → Nat
  | [] => 0
  | x :: xs => 1 + jsize x + jsizeItems xs

/-- Fuel needed by parseMembers for these object members. -/
def jsizeMembers : List (JStr × Json) → Nat
  | [] => 0
  | m :: ms => 1 + jsize m.2 + jsizeMembers ms

end

/-! ### The suggestion response pipeline (lib/openai.ts, getBrewSuggestions)

Models lines 255-311 of the wrapper module: strict JSON parse of the
model's message content, the two suggestionText cleaning heuristics, the
regex fallback extraction, and the final error. -/

/-- Shape of the structured suggestion response (interface
BrewSuggestionResponse). -/
structure BrewSuggestionResponse where
  suggestionText : JStr
  suggestedGrindSize : Option JStr
  suggestedWaterTemp : Option JStr
  suggestedSteepTimeSeconds : Option Int
  suggestedUseBloom : Bool
  suggestedBloomTimeSeconds : Option Int
deriving DecidableEq

/-- Search string of the embedded-parameter cleanup. -/
def grindMarker : JStr := jstr ",\"suggestedGrindSize\":"

/-- Search string of the parameters-only cleanup. -/
def jsonOnlyMarker : JStr := jstr "\x7b\"suggestedGrindSize\":"

/-- Replacement narrative used when the text is only the parameter JSON. -/
def missingNarrative : JStr :=
  jstr "Suggestion parameters received, but narrative text missing in response."

/-- The two cleaning steps applied to a parsed response: drop a trailing
embedded parameter JSON (found via lastIndexOf of the marker, confirmed
by trim-then-endsWith a closing brace, removed via substring-then-trim),
then replace a text that is only the parameter JSON by a placeholder. -/
def cleanSuggestionResponse (r : BrewSuggestionResponse) : BrewSuggestionResponse :=
  let t1 :=
    match jsLastIndexOf r.suggestionText grindMarker with
    | some i =>
      if endsWithChar (jsTrim (r.suggestionText.drop i)) '\x7d' then
        jsTrim (r.suggestionText.take i)
      else r.suggestionText
    | none => r.suggestionText
  let t2 := if jsonOnlyMarker.isPrefixOf (jsTrim t1) then missingNarrative else t1
  { r with suggestionText := t2 }

/-- Read a JSON string value. -/
def asStr : Json → Option JStr
  | .str s => some s
  | _ => none

/-- Read a JSON number value as an integer. -/
def asInt : Json → Option Int
  | .num n => some n
  | _ => none

/-- Read a JSON boolean value. -/
def asBool : Json → Option Bool
  | .bool b => some b
  | _ => none

/-- Property lookup on a parsed JSON object; with duplicate keys the last
value wins, as in the host JSON.parse. -/
def jlookup (ms : List (JStr × Json)) (k : JStr) : Option Json :=
  ms.foldl (fun acc m => if m.1 = k then some m.2 else acc) none

/-- Decode a nullable-string field: a missing key or an explicit null is
an absent value. -/
def asNullableStr : Option Json → Option (Option JStr)
  | none => some none
  | some .null => some none
  | some (.str s) => some (some s)
  | some _ => none

/-- Decode a nullable-number field. -/
def asNullableInt : Option Json → Option (Option Int)
  | none => some none
  | some .null => some none
  | some (.num n) => some (some n)
  | some _ => none

/-- Decode a boolean field. -/
def asBoolField : Option Json → Option Bool
  | some (.bool b) => some b
  | _ => none

/-- View a parsed JSON value as a BrewSuggestionResponse.  The source is
untyped and casts; a value on which the cast lies (no string
suggestionText) makes the cleanup step throw a TypeError, landing in the
same catch as a parse failure, which this decoder's failure models.
Schema-deviant values for the other fields are also rejected here; no
claim's inputs produce one. -/
def decodeSuggestionResponse (j : Json) : Option BrewSuggestionResponse :=
  match j with
  | .obj ms => do
    let text ← (jlookup ms (jstr "suggestionText")).bind asStr
    let g ← asNullableStr (jlookup ms (jstr "suggestedGrindSize"))
    let w ← asNullableStr (jlookup ms (jstr "suggestedWaterTemp"))
    let st ← asNullableInt (jlookup ms (jstr "suggestedSteepTimeSeconds"))
    let ub ← asBoolField (jlookup ms (jstr "suggestedUseBloom"))
    let bt ← asNullableInt (jlookup ms (jstr "suggestedBloomTimeSeconds"))
    some ⟨text, g, w, st, ub, bt⟩
  | _ => none

/-- Structured encoding of a response with every field present, nulls for
absent values: the shape the prompt asks the model to return. -/
def encodeSuggestionResponse (r : BrewSuggestionResponse) : Json :=
  .obj
    [ (jstr "suggestionText", .str r.suggestionText)
    , (jstr "suggestedGrindSize", match r.suggestedGrindSize with
        | some s => .str s
        | none => .null)
    , (jstr "suggestedWaterTemp", match r.suggestedWaterTemp with
        | some s => .str s
        | none => .null)
    , (jstr "suggestedSteepTimeSeconds", match r.suggestedSteepTimeSeconds with
        | some n => .num n
        | none => .null)
    , (jstr "suggestedUseBloom", .bool r.suggestedUseBloom)
    , (jstr "suggestedBloomTimeSeconds", match r.suggestedBloomTimeSeconds with
        | some n => .num n
        | none => .null) ]

/-- Literal part of the fallback regex pattern. -/
def suggestionTextLit : JStr := jstr "\"suggestionText\":"

/-- Match of the fallback regex at one start index: the literal, then a
run of whitespace, then a double-quoted value free of double quotes; the
captured group is returned. -/
def matchSuggestionAt (s : JStr) (i : Nat) : Option JStr :=
  if suggestionTextLit.isPrefixOf (s.drop i) then
    match (s.drop (i + suggestionTextLit.length)).dropWhile jsWs with
    | '"' :: r2 =>
      let g := r2.takeWhile (fun c => c ≠ '"')
      if g.length < r2.length then some g else none
    | _ => none
  else none

/-- Leftmost match of the fallback regex over the whole content, as
String.prototype.match finds one. -/
def firstSuggestionMatch (s : JStr) : Option JStr :=
  (List.range (s.length + 1)).findSome? (matchSuggestionAt s)

/-- Error thrown when neither parsing nor the regex fallback extracts a
suggestion. -/
def suggestionExtractFailure : String :=
  "Failed to parse or extract suggestion from OpenAI response."

/-- The response-content pipeline of getBrewSuggestions: strict parse and
clean, else regex fallback with null structured fields, else throw.  A
captured group that is the empty string is falsy in the source's guard
and therefore falls through to the throw; the source's
replace-newline-by-newline call on the captured text is the identity. -/
def processSuggestionContent (content : JStr) : Except String BrewSuggestionResponse :=
  match (parseJson content).bind decodeSuggestionResponse with
  | some parsedResponse => .ok (cleanSuggestionResponse parsedResponse)
  | none =>
    match firstSuggestionMatch content with
    | some g =>
      if g.isEmpty then .error suggestionExtractFailure
      else .ok ⟨g, none, none, none, false, none⟩
    | none => .error suggestionExtractFailure

/-! ### Image analysis response handling (lib/openai.ts, analyzeImage) -/

/-- Error thrown when the chat completion has no message content. -/
def noContentError : String := "No content returned from OpenAI"

/-- Error thrown when the located text fails to parse. -/
def parseImageError : String := "Failed to parse image analysis data."

/-- Model of content.match over the greedy brace regex: the match starts
at the first opening brace that has a closing brace after it and extends
to the last closing brace of the whole text. -/
def greedyBraceMatch (s : JStr) : Option JStr :=
  match jsLastIndexOf s ['\x7d'] with
  | some j =>
    match (s.take j).findIdx? (fun c => c = '\x7b') with
    | some i => some ((s.drop i).take (j - i + 1))
    | none => none
  | none => none

/-- The response handling of analyzeImage: on content, parse the greedy
brace match (or the whole content when the regex finds none) and return
the parsed value, throwing on a parse failure; without content, throw. -/
def analyzeImageContent (content : Option JStr) : Except String Json :=
  match content with
  | some c =>
    if c.isEmpty then .error noContentError
    else
      let jsonString := (greedyBraceMatch c).getD c
      match parseJson jsonString with
      | some v => .ok v
      | none => .error parseImageError
  | none => .error noContentError

/-! ### Credential resolution and the call wrapper (lib/openai.ts) -/

/-- The placeholder that disqualifies the environment value. -/
def placeholderApiKey : JStr := jstr "your_openai_api_key_here"

/-- Persisted-key check: present, non-empty and not whitespace-only. -/
def storedApiKeyLookup (storedKey : Option JStr) : Option JStr :=
  match storedKey with
  | some k => if k ≠ [] ∧ jsTrim k ≠ [] then some k else none
  | none => none

/-- Credential resolution order of getApiKeyInternal: a non-empty,
non-whitespace, non-placeholder environment value first, else the
persisted value, else null. -/
def getApiKeyInternal (envKey storedKey : Option JStr) : Option JStr :=
  match envKey with
  | some k =>
    if k ≠ [] ∧ jsTrim k ≠ [] ∧ k ≠ placeholderApiKey then some k
    else storedApiKeyLookup storedKey
  | none => storedApiKeyLookup storedKey

/-- Error thrown by makeOpenAICall when no credential resolves. -/
def missingKeyError : String := "OpenAI API key not found. Please set it in the settings."

/-- Result of the call wrapper; networkCallMade instruments whether the
provided call function was executed. -/
structure ApiCallResult (α : Type) where
  outcome : Except String α
  networkCallMade : Bool

/-- Model of makeOpenAICall: resolve the credential, throw the missing-key
error without touching the network when none resolves, otherwise run the
provided call function against a client holding the key (the client is
modelled by the key itself; its construction cannot fail here). -/
def makeOpenAICall {α : Type} (envKey storedKey : Option JStr)
    (callFunction : JStr → Except String α) : ApiCallResult α :=
  match getApiKeyInternal envKey storedKey with
  | none => ⟨.error missingKeyError, false⟩
  | some apiKey => ⟨callFunction apiKey, true⟩

/-! ### Brews: the record type and its persistence round trip -/

/-- The Brew record (interface Brew).  Optional fields model properties
the source sets to undefined; JSON.stringify omits those. -/
structure Brew where
  id : JStr
  timestamp : Int
  beanName : JStr
  steepTime : Int
  useBloom : Bool
  bloomTime : Option JStr
  grindSize : JStr
  waterTemp : JStr
  rating : Int
  notes : JStr
  brewDevice : Option JStr
  grinder : Option JStr
deriving DecidableEq

/-- Optional object member: present exactly when the value is defined. -/
def optMember (k : String) (v : Option JStr) : List (JStr × Json) :=
  match v with
  | some s => [(jstr k, .str s)]
  | none => []

/-- JSON object a Brew record serializes to, keys in the literal's
insertion order, undefined properties omitted. -/
def encodeBrew (b : Brew) : Json :=
  .obj
    ([ (jstr "id", .str b.id)
     , (jstr "timestamp", .num b.timestamp)
     , (jstr "beanName", .str b.beanName)
     , (jstr "steepTime", .num b.steepTime)
     , (jstr "useBloom", .bool b.useBloom) ]
     ++ optMember "bloomTime" b.bloomTime
     ++ [ (jstr "grindSize", .str b.grindSize)
        , (jstr "waterTemp", .str b.waterTemp)
        , (jstr "rating", .num b.rating)
        , (jstr "notes", .str b.notes) ]
     ++ optMember "brewDevice" b.brewDevice
     ++ optMember "grinder" b.grinder)

/-- Decode an optional string property: a missing key is an undefined
field; other shapes are rejected (the untyped source would carry them
through, which no claim's inputs exercise). -/
def asOptStrField (o : Option Json) : Option (Option JStr) :=
  match o with
  | none => some none
  | some (.str s) => some (some s)
  | some _ => none

/-- View a parsed JSON value as a Brew record. -/
def decodeBrew (j : Json) : Option Brew :=
  match j with
  | .obj ms => do
    let i ← (jlookup ms (jstr "id")).bind asStr
    let ts ← (jlookup ms (jstr "timestamp")).bind asInt
    let bn ← (jlookup ms (jstr "beanName")).bind asStr
    let st ← (jlookup ms (jstr "steepTime")).bind asInt
    let ub ← (jlookup ms (jstr "useBloom")).bind asBool
    let bt ← asOptStrField (jlookup ms (jstr "bloomTime"))
    let gs ← (jlookup ms (jstr "grindSize")).bind asStr
    let wt ← (jlookup ms (jstr "waterTemp")).bind asStr
    let rt ← (jlookup ms (jstr "rating")).bind asInt
    let no ← (jlookup ms (jstr "notes")).bind asStr
    let bd ← asOptStrField (jlookup ms (jstr "brewDevice"))
    let gr ← asOptStrField (jlookup ms (jstr "grinder"))
    some ⟨i, ts, bn, st, ub, bt, gs, wt, rt, no, bd, gr⟩
  | _ => none

/-- Encode a whole brews document. -/
def encodeBrewList (l : List Brew) : Json := .arr (l.map encodeBrew)

/-- Decode a whole brews document. -/
def decodeBrewList (j : Json) : Option (List Brew) :=
  match j with
  | .arr xs => xs.mapM decodeBrew
  | _ => none

/-- Storage effects a handler performs on the brews document. -/
inductive StorageOp where
  | read : StorageOp
  | write : StorageOp
deriving DecidableEq

/-- User-visible outcome of a save attempt. -/
inductive SaveOutcome where
  | missingInfoAlert : SaveOutcome
  | savedAlert : SaveOutcome
  | errorAlert : SaveOutcome
deriving DecidableEq

/-- The storage read-modify-write of handleSaveBrew after validation:
read the brews document, parse it (an absent document is an empty
array), append the new record, stringify and write the whole array.  A
parse failure throws into the catch, which alerts and leaves storage
unchanged.  The third component records the storage operations run. -/
def handleSaveBrewWrite (stored : Option JStr) (newBrew : Brew) :
    Option JStr × SaveOutcome × List StorageOp :=
  match (match stored with
         | none => some []
         | some s => (parseJson s).bind decodeBrewList) with
  | some existingBrews =>
    (some (stringify (encodeBrewList (existingBrews ++ [newBrew]))),
     SaveOutcome.savedAlert, [StorageOp.read, StorageOp.write])
  | none => (stored, SaveOutcome.errorAlert, [StorageOp.read])

/-- Form state of the brew screen at save time. -/
structure BrewFormState where
  beanName : Option JStr
  steepTimeSeconds : Int
  useBloom : Bool
  bloomTime : JStr
  grindSize : JStr
  waterTemp : JStr
  rating : Int
  notes : JStr
  selectedBrewDevice : JStr
  selectedGrinder : JStr
deriving DecidableEq

/-- The newBrew object literal handleSaveBrew constructs; now models
Date.now(), empty selections become undefined. -/
def buildNewBrew (form : BrewFormState) (now : Int) : Brew :=
  { id := intChars now
  , timestamp := now
  , beanName := form.beanName.getD []
  , steepTime := form.steepTimeSeconds
  , useBloom := form.useBloom
  , bloomTime := if form.useBloom then some form.bloomTime else none
  , grindSize := form.grindSize
  , waterTemp := form.waterTemp
  , rating := form.rating
  , notes := form.notes
  , brewDevice := if form.selectedBrewDevice = [] then none else some form.selectedBrewDevice
  , grinder := if form.selectedGrinder = [] then none else some form.selectedGrinder }

/-- Model of handleSaveBrew: the falsy-field validation guard returns
with an alert before any storage access; otherwise the record is built
and the document rewritten. -/
def handleSaveBrew (form : BrewFormState) (now : Int) (stored : Option JStr) :
    Option JStr × SaveOutcome × List StorageOp :=
  if form.beanName = none ∨ form.beanName = some [] ∨ form.grindSize = [] ∨
      form.waterTemp = [] then
    (stored, SaveOutcome.missingInfoAlert, [])
  else handleSaveBrewWrite stored (buildNewBrew form now)

/-- Per-record fixup of loadBrews: a falsy beanName is replaced. -/
def fixLoadedBrew (b : Brew) : Brew :=
  { b with beanName := if b.beanName = [] then jstr "Unnamed Bean" else b.beanName }

/-- Model of loadBrews: read the document; on a missing document or a
parse failure the screen shows an empty list. -/
def loadBrews (stored : Option JStr) : List Brew :=
  match stored with
  | none => []
  | some s =>
    match (parseJson s).bind decodeBrewList with
    | some parsedBrews => parsedBrews.map fixLoadedBrew
    | none => []

/-! ### Settings screen: equipment documents and default pointers -/

/-- BrewDevice record of the settings screen (id, name, type, optional
notes; the type field is named deviceType here). -/
structure SettingsBrewDevice where
  id : JStr
  name : JStr
  deviceType : JStr
  notes : Option JStr
deriving DecidableEq

/-- Grinder record of the settings screen. -/
structure SettingsGrinder where
  id : JStr
  name : JStr
  grinderType : JStr
  notes : Option JStr
deriving DecidableEq

/-- The four persisted values the settings handlers touch; the two
documents are held decoded (their serialization is the round trip
verified separately on the brews document). -/
structure EquipmentStorage where
  brewDevicesDoc : List SettingsBrewDevice
  grindersDoc : List SettingsGrinder
  defaultBrewDeviceKey : Option JStr
  defaultGrinderKey : Option JStr
deriving DecidableEq

/-- Component state of the settings screen. -/
structure SettingsState where
  brewDevices : List SettingsBrewDevice
  grinders : List SettingsGrinder
  defaultBrewDevice : JStr
  defaultGrinder : JStr
deriving DecidableEq

/-- Model of handleRemoveBrewDevice: filter the state list, write it as
the new document, and clear the default pointer (storage key and state)
when the state's default equals the removed id. -/
def handleRemoveBrewDevice (st : SettingsState) (sto : EquipmentStorage) (id : JStr) :
    SettingsState × EquipmentStorage :=
  let updatedDevices := st.brewDevices.filter (fun device => device.id ≠ id)
  let st1 := { st with brewDevices := updatedDevices }
  let sto1 := { sto with brewDevicesDoc := updatedDevices }
  if st.defaultBrewDevice = id then
    ({ st1 with defaultBrewDevice := [] }, { sto1 with defaultBrewDeviceKey := none })
  else (st1, sto1)

/-- Model of handleRemoveGrinder. -/
def handleRemoveGrinder (st : SettingsState) (sto : EquipmentStorage) (id : JStr) :
    SettingsState × EquipmentStorage :=
  let updatedGrinders := st.grinders.filter (fun grinder => grinder.id ≠ id)
  let st1 := { st with grinders := updatedGrinders }
  let sto1 := { sto with grindersDoc := updatedGrinders }
  if st.defaultGrinder = id then
    ({ st1 with defaultGrinder := [] }, { sto1 with defaultGrinderKey := none })
  else (st1, sto1)

/-- The state loadData establishes for the device document: the list
mirrors storage, and the default state mirrors the stored pointer (the
empty string when the key is absent; a stored pointer is non-empty). -/
def brewDeviceSync (st : SettingsState) (sto : EquipmentStorage) : Prop :=
  st.brewDevices = sto.brewDevicesDoc ∧
  (match sto.defaultBrewDeviceKey with
   | none => st.defaultBrewDevice = []
   | some d => st.defaultBrewDevice = d ∧ d ≠ [])

/-- Same for the grinder document. -/
def grinderSync (st : SettingsState) (sto : EquipmentStorage) : Prop :=
  st.grinders = sto.grindersDoc ∧
  (match sto.defaultGrinderKey with
   | none => st.defaultGrinder = []
   | some d => st.defaultGrinder = d ∧ d ≠ [])

/-- The stored default device pointer, if present, names a record of the
stored device document. -/
def brewDevicePointerValid (sto : EquipmentStorage) : Prop :=
  ∀ d, sto.defaultBrewDeviceKey = some d → ∃ dev ∈ sto.brewDevicesDoc, dev.id = d

/-- Same for the grinder pointer. -/
def grinderPointerValid (sto : EquipmentStorage) : Prop :=
  ∀ d, sto.defaultGrinderKey = some d → ∃ g ∈ sto.grindersDoc, g.id = d

/-! ### Prompt construction components (lib/openai.ts, getBrewSuggestions) -/

/-- Equipment record of the wrapper module: the lib's BrewDevice and
Grinder interfaces are both this shape (id and name). -/
structure Equipment where
  id : JStr
  name : JStr
deriving DecidableEq

/-- Current-equipment name resolution: a falsy reference yields the
undefined branch; otherwise the record found by id supplies the name,
with a falsy lookup or name replaced by Unknown. -/
def resolveEquipmentName (ref : Option JStr) (items : List Equipment) : Option JStr :=
  match ref with
  | some rid =>
    if rid = [] then none
    else some
      (match (items.find? (fun it => it.id == rid)).map Equipment.name with
       | some n => if n = [] then jstr "Unknown" else n
       | none => jstr "Unknown")
  | none => none

/-- Candidate equipment determined from the notes: when no name resolved
and the notes are non-empty, the names of the records whose lowercased
name occurs in the lowercased notes. -/
def possibleEquipmentNames (resolvedName : Option JStr) (notes : JStr)
    (items : List Equipment) : List JStr :=
  if resolvedName = none ∧ notes ≠ [] then
    (items.filter (fun it => jsIncludes (jsLower notes) (jsLower it.name))).map Equipment.name
  else []

/-- Historical brews embedded in the prompt: filter to the selected bean
by case-insensitive name equality — the filter is guarded by the JS
truthiness of selectedBeanName, so an absent or empty name keeps every
brew — then sort by rating highest first (the sort is stable, as the
host sort is) and take the top five. -/
def relevantBrews (previousBrews : List Brew) (selectedBeanName : Option JStr) : List Brew :=
  ((previousBrews.filter (fun brew =>
      match selectedBeanName with
      | some sel => if sel = [] then true else jsLower brew.beanName == jsLower sel
      | none => true)).mergeSort
    (fun a b => decide (b.rating ≤ a.rating))).take 5

/-! ## Lemmas: characters and digits -/

theorem char_ne_of_toNat_ne {c d : Char} (h : c.toNat ≠ d.toNat) : c ≠ d :=
  fun he => h (he ▸ rfl)

theorem digitCh_toNat {d : Nat} (h : d < 10) : (digitCh d).toNat = 48 + d := by
  interval_cases d <;> decide

theorem isDigitCh_digitCh {d : Nat} (h : d < 10) : isDigitCh (digitCh d) = true := by
  interval_cases d <;> decide

theorem hexVal_hexCh {d : Nat} (h : d < 16) : hexVal (hexCh d) = some d := by
  interval_cases d <;> decide

theorem natChars_ne_nil (n : Nat) : natChars n ≠ [] := by
  unfold natChars
  split
  · simp
  · rename_i h
    simp [Nat.digits_ne_nil_iff_ne_zero, h]

theorem natChars_all_digits (n : Nat) : ∀ c ∈ natChars n, isDigitCh c = true := by
  intro c hc
  unfold natChars at hc
  split at hc
  · simp at hc
    subst hc
    decide
  · simp only [List.mem_map, List.mem_reverse] at hc
    obtain ⟨d, hd, rfl⟩ := hc
    exact isDigitCh_digitCh (Nat.digits_lt_base (by norm_num) hd)

theorem isDigitCh_toNat {c : Char} (h : isDigitCh c = true) :
    48 ≤ c.toNat ∧ c.toNat ≤ 57 := by
  simpa [isDigitCh, Bool.and_eq_true, decide_eq_true_iff] using h

theorem natChars_head (n : Nat) : ∃ c t, natChars n = c :: t ∧ isDigitCh c = true := by
  rcases hn : natChars n with _ | ⟨c, t⟩
  · exact absurd hn (natChars_ne_nil n)
  · exact ⟨c, t, rfl, natChars_all_digits n c (by rw [hn]; simp)⟩

theorem foldr_eq_ofDigits (ds : List Nat) :
    List.foldr (fun d a => 10 * a + d) 0 ds = Nat.ofDigits 10 ds := by
  induction ds with
  | nil => simp [Nat.ofDigits_nil]
  | cons d t ih => simp [Nat.ofDigits_cons, ih]; ring

theorem foldl_digits_congr (ds : List Nat) (h : ∀ d ∈ ds, d < 10) : ∀ (a : Nat),
    List.foldl (fun (x : Nat) (d : Nat) => 10 * x + ((digitCh d).toNat - 48)) a ds
      = List.foldl (fun x d => 10 * x + d) a ds := by
  induction ds with
  | nil => intro a; rfl
  | cons d t ih =>
    intro a
    simp only [List.foldl_cons]
    rw [digitCh_toNat (h d (by simp)), Nat.add_sub_cancel_left]
    exact ih (fun x hx => h x (by simp [hx])) _

theorem digitsVal_natChars (n : Nat) : digitsVal (natChars n) = n := by
  unfold natChars digitsVal
  split
  · rename_i h
    subst h
    decide
  · rw [List.foldl_map,
      foldl_digits_congr _ (fun d hd =>
        Nat.digits_lt_base (by norm_num) (List.mem_reverse.mp hd)) 0,
      List.foldl_reverse, foldr_eq_ofDigits, Nat.ofDigits_digits]

/-! ## Lemmas: takeWhile / dropWhile over appends -/

theorem takeWhile_append_of {α : Type} {p : α → Bool} {l r : List α}
    (hl : ∀ c ∈ l, p c = true) (hr : ∀ c, r.head? = some c → p c = false) :
    (l ++ r).takeWhile p = l := by
  induction l with
  | nil =>
    cases r with
    | nil => rfl
    | cons c t => simp [List.takeWhile_cons, hr c rfl]
  | cons c t ih =>
    have hc : p c = true := hl c (by simp)
    simp only [List.cons_append, List.takeWhile_cons, hc, if_true]
    rw [ih (fun x hx => hl x (by simp [hx]))]

theorem dropWhile_append_of {α : Type} {p : α → Bool} {l r : List α}
    (hl : ∀ c ∈ l, p c = true) (hr : ∀ c, r.head? = some c → p c = false) :
    (l ++ r).dropWhile p = r := by
  induction l with
  | nil =>
    cases r with
    | nil => rfl
    | cons c t => simp [List.dropWhile_cons, hr c rfl]
  | cons c t ih =>
    have hc : p c = true := hl c (by simp)
    simp only [List.cons_append, List.dropWhile_cons, hc, if_true]
    exact ih (fun x hx => hl x (by simp [hx]))

theorem skipWs_cons_of (c : Char) (l : JStr) (h : jsonWs c = false) :
    skipWs (c :: l) = c :: l := by
  simp [skipWs, List.dropWhile_cons, h]

theorem skipWs_cons (c : Char) (l : JStr) :
    skipWs (c :: l) = if jsonWs c = true then skipWs l else c :: l := by
  simp [skipWs, List.dropWhile_cons]

/-! ## Lemmas: the numeric and string token round trips -/

theorem parseNat_natChars (n : Nat) (rest : JStr)
    (hrest : ∀ c, rest.head? = some c → isDigitCh c = false) :
    parseNat (natChars n ++ rest) = some (n, rest) := by
  simp only [parseNat]
  rw [takeWhile_append_of (natChars_all_digits n) hrest,
    dropWhile_append_of (natChars_all_digits n) hrest]
  have hne : (natChars n).isEmpty = false := by
    rcases h : natChars n with _ | _
    · exact absurd h (natChars_ne_nil n)
    · rfl
  simp [hne, digitsVal_natChars]

theorem parseStrBody_escapeChars (s : JStr) : ∀ (rest : JStr),
    parseStrBody (escapeChars s ++ '"' :: rest) = some (s, rest) := by
  induction s with
  | nil =>
    intro rest
    show parseStrBody ('"' :: rest) = _
    rw [parseStrBody.eq_def]
    simp
  | cons c t ih =>
    intro rest
    show parseStrBody ((escapeChar c ++ escapeChars t) ++ '"' :: rest) = _
    by_cases h1 : c = '"'
    · subst h1
      show parseStrBody ('\\' :: '"' :: (escapeChars t ++ '"' :: rest)) = _
      rw [parseStrBody.eq_def]
      simp [consStr, ih rest]
    by_cases h2 : c = '\\'
    · subst h2
      show parseStrBody ('\\' :: '\\' :: (escapeChars t ++ '"' :: rest)) = _
      rw [parseStrBody.eq_def]
      simp [consStr, ih rest]
    by_cases hlt : c.toNat < 32
    · by_cases h3 : c = '\x08'
      · subst h3
        show parseStrBody ('\\' :: 'b' :: (escapeChars t ++ '"' :: rest)) = _
        rw [parseStrBody.eq_def]
        simp [consStr, ih rest]
      by_cases h4 : c = '\t'
      · subst h4
        show parseStrBody ('\\' :: 't' :: (escapeChars t ++ '"' :: rest)) = _
        rw [parseStrBody.eq_def]
        simp [consStr, ih rest]
      by_cases h5 : c = '\n'
      · subst h5
        show parseStrBody ('\\' :: 'n' :: (escapeChars t ++ '"' :: rest)) = _
        rw [parseStrBody.eq_def]
        simp [consStr, ih rest]
      by_cases h6 : c = '\x0c'
      · subst h6
        show parseStrBody ('\\' :: 'f' :: (escapeChars t ++ '"' :: rest)) = _
        rw [parseStrBody.eq_def]
        simp [consStr, ih rest]
      by_cases h7 : c = '\r'
      · subst h7
        show parseStrBody ('\\' :: 'r' :: (escapeChars t ++ '"' :: rest)) = _
        rw [parseStrBody.eq_def]
        simp [consStr, ih rest]
      · have hdiv : c.toNat / 16 < 16 := by omega
        have hmod : c.toNat % 16 < 16 := by omega
        have hn : 4096 * 0 + 256 * 0 + 16 * (c.toNat / 16) + c.toNat % 16 = c.toNat := by
          omega
        have hlt2 : c.toNat < 55296 := by omega
        have h0 : hexVal '0' = some 0 := by decide
        simp only [escapeChar, h1, h2, h3, h4, h5, h6, h7, hlt, if_true, if_false,
          List.cons_append, List.nil_append]
        rw [parseStrBody.eq_def]
        simp only [reduceIte, h0, hexVal_hexCh hdiv, hexVal_hexCh hmod]
        rw [hn] at *
        simp [hn, hlt2, Char.ofNat_toNat, consStr, ih rest]
    · have h3 : c ≠ '\x08' := char_ne_of_toNat_ne (by simp; omega)
      have h4 : c ≠ '\t' := char_ne_of_toNat_ne (by simp; omega)
      have h5 : c ≠ '\n' := char_ne_of_toNat_ne (by simp; omega)
      have h6 : c ≠ '\x0c' := char_ne_of_toNat_ne (by simp; omega)
      have h7 : c ≠ '\r' := char_ne_of_toNat_ne (by simp; omega)
      simp only [escapeChar, h1, h2, h3, h4, h5, h6, h7, hlt, if_false,
        List.cons_append, List.nil_append]
      rw [parseStrBody.eq_def]
      simp [h1, h2, hlt, consStr, ih rest]

/-! ## Lemmas: rendering equations and head characters -/

theorem stringify_num (n : Int) : stringify (.num n) = intChars n := by
  rw [stringify.eq_def]

theorem stringify_str (s : JStr) : stringify (.str s) = '"' :: (escapeChars s ++ ['"']) := by
  rw [stringify.eq_def]

theorem stringify_arr (xs : List Json) :
    stringify (.arr xs) = '[' :: (stringifyItems xs ++ [']']) := by
  rw [stringify.eq_def]

theorem stringify_obj (ms : List (JStr × Json)) :
    stringify (.obj ms) = '{' :: (stringifyMembers ms ++ ['}']) := by
  rw [stringify.eq_def]

theorem stringifyItems_single (x : Json) : stringifyItems [x] = stringify x := by
  rw [stringifyItems.eq_def]

theorem stringifyItems_cons2 (x y : Json) (ys : List Json) :
    stringifyItems (x :: y :: ys) = stringify x ++ ',' :: stringifyItems (y :: ys) := by
  rw [stringifyItems.eq_def]

theorem stringifyMembers_single (k : JStr) (v : Json) :
    stringifyMembers [(k, v)] = '"' :: (escapeChars k ++ '"' :: ':' :: stringify v) := by
  rw [stringifyMembers.eq_def]

theorem stringifyMembers_cons2 (k : JStr) (v : Json) (m : JStr × Json)
    (ms : List (JStr × Json)) :
    stringifyMembers ((k, v) :: m :: ms) =
      ('"' :: (escapeChars k ++ '"' :: ':' :: stringify v)) ++ ',' :: stringifyMembers (m :: ms) := by
  rw [stringifyMembers.eq_def]

theorem jsize_num (n : Int) : jsize (.num n) = 1 := by rw [jsize.eq_def]

theorem jsize_arr (xs : List Json) : jsize (.arr xs) = 1 + jsizeItems xs := by
  rw [jsize.eq_def]

theorem jsize_obj (ms : List (JStr × Json)) : jsize (.obj ms) = 1 + jsizeMembers ms := by
  rw [jsize.eq_def]

theorem jsizeItems_cons (x : Json) (xs : List Json) :
    jsizeItems (x :: xs) = 1 + jsize x + jsizeItems xs := by
  rw [jsizeItems.eq_def]

theorem jsizeMembers_cons (m : JStr × Json) (ms : List (JStr × Json)) :
    jsizeMembers (m :: ms) = 1 + jsize m.2 + jsizeMembers ms := by
  rw [jsizeMembers.eq_def]

theorem jsize_pos (v : Json) : 1 ≤ jsize v := by
  cases v <;> simp [jsize.eq_def]

theorem char_eq_of_toNat_eq {c d : Char} (h : c.toNat = d.toNat) : c = d := by
  rw [← Char.ofNat_toNat c, ← Char.ofNat_toNat d, h]

theorem digit_head_props {c : Char} (h : isDigitCh c = true) :
    jsonWs c = false ∧ c ≠ ']' ∧ c ≠ '\x7d' ∧ c ≠ 'n' ∧ c ≠ 't' ∧ c ≠ 'f' ∧
      c ≠ '"' ∧ c ≠ '[' ∧ c ≠ '\x7b' ∧ c ≠ '-' := by
  obtain ⟨hl, hr⟩ := isDigitCh_toNat h
  have hne : ∀ (d : Char) (m : Nat), d.toNat = m → (c.toNat = m → False) → c ≠ d := by
    intro d m hm hc he
    exact hc (by rw [he, hm])
  have h1 : c ≠ ' ' := hne _ 32 rfl (by omega)
  have h2 : c ≠ '\t' := hne _ 9 rfl (by omega)
  have h3 : c ≠ '\n' := hne _ 10 rfl (by omega)
  have h4 : c ≠ '\r' := hne _ 13 rfl (by omega)
  exact ⟨by simp [jsonWs, h1, h2, h3, h4],
    hne _ 93 rfl (by omega), hne _ 125 rfl (by omega), hne _ 110 rfl (by omega),
    hne _ 116 rfl (by omega), hne _ 102 rfl (by omega), hne _ 34 rfl (by omega),
    hne _ 91 rfl (by omega), hne _ 123 rfl (by omega), hne _ 45 rfl (by omega)⟩

theorem stringify_head (v : Json) :
    ∃ c cs, stringify v = c :: cs ∧ jsonWs c = false ∧ c ≠ ']' ∧ c ≠ '\x7d' := by
  cases v with
  | null => exact ⟨'n', jstr "ull", by decide, by decide, by decide, by decide⟩
  | bool b =>
    cases b with
    | true => exact ⟨'t', jstr "rue", by decide, by decide, by decide, by decide⟩
    | false => exact ⟨'f', jstr "alse", by decide, by decide, by decide, by decide⟩
  | num n =>
    rw [stringify_num, intChars]
    by_cases hneg : n < 0
    · exact ⟨'-', natChars n.natAbs, by simp [hneg], by decide, by decide, by decide⟩
    · obtain ⟨c, t, hct, hcd⟩ := natChars_head n.natAbs
      obtain ⟨hws, hrb, hcb, _⟩ := digit_head_props hcd
      exact ⟨c, t, by simp [hneg, hct], hws, hrb, hcb⟩
  | str s => exact ⟨'"', escapeChars s ++ ['"'], stringify_str s, by decide, by decide, by decide⟩
  | arr xs =>
    exact ⟨'[', stringifyItems xs ++ [']'], stringify_arr xs, by decide, by decide, by decide⟩
  | obj ms =>
    exact ⟨'{', stringifyMembers ms ++ ['}'], stringify_obj ms, by decide, by decide, by decide⟩

theorem stringifyItems_cons_head (x : Json) (xs : List Json) :
    ∃ c cs, stringifyItems (x :: xs) = c :: cs ∧ jsonWs c = false ∧ c ≠ ']' ∧ c ≠ '\x7d' := by
  obtain ⟨c, cs, hc, hws, h1, h2⟩ := stringify_head x
  cases xs with
  | nil => exact ⟨c, cs, by rw [stringifyItems_single, hc], hws, h1, h2⟩
  | cons y ys =>
    exact ⟨c, cs ++ ',' :: stringifyItems (y :: ys),
      by rw [stringifyItems_cons2, hc, List.cons_append], hws, h1, h2⟩

theorem stringifyMembers_cons_head (m : JStr × Json) (ms : List (JStr × Json)) :
    ∃ cs, stringifyMembers (m :: ms) = '"' :: cs := by
  obtain ⟨k, v⟩ := m
  cases ms with
  | nil => exact ⟨escapeChars k ++ '"' :: ':' :: stringify v, stringifyMembers_single k v⟩
  | cons m2 ms2 =>
    exact ⟨(escapeChars k ++ '"' :: ':' :: stringify v) ++ ',' :: stringifyMembers (m2 :: ms2),
      by rw [stringifyMembers_cons2, List.cons_append]⟩

theorem expectChars_exact (lit rest : JStr) : expectChars lit (lit ++ rest) = some rest := by
  unfold expectChars
  rw [if_pos (List.isPrefixOf_iff_prefix.mpr (List.prefix_append lit rest)), List.drop_left]

theorem headNotDigit_cons (a : Char) (l : JStr) (h : isDigitCh a = false) :
    ∀ c, (a :: l).head? = some c → isDigitCh c = false := by
  intro c hc
  simp only [List.head?_cons, Option.some.injEq] at hc
  subst hc
  exact h

/-! ## The JSON round trip: parsing a rendering gives back the value -/

theorem parse_stringify_all : ∀ (f : Nat),
    (∀ (v : Json) (rest : JStr), jsize v ≤ f →
        (∀ c, rest.head? = some c → isDigitCh c = false) →
        parseVal f (stringify v ++ rest) = some (v, rest)) ∧
    (∀ (xs : List Json) (rest : JStr), xs ≠ [] → jsizeItems xs ≤ f →
        parseItems f (stringifyItems xs ++ ']' :: rest) = some (xs, rest)) ∧
    (∀ (ms : List (JStr × Json)) (rest : JStr), ms ≠ [] → jsizeMembers ms ≤ f →
        parseMembers f (stringifyMembers ms ++ '\x7d' :: rest) = some (ms, rest)) := by
  intro f
  induction f with
  | zero =>
    refine ⟨fun v rest hs _ => absurd hs (by have := jsize_pos v; omega),
      fun xs rest hne hs => ?_, fun ms rest hne hs => ?_⟩
    · cases xs with
      | nil => exact absurd rfl hne
      | cons x t => exact absurd hs (by rw [jsizeItems_cons]; omega)
    · cases ms with
      | nil => exact absurd rfl hne
      | cons m t => exact absurd hs (by rw [jsizeMembers_cons]; omega)
  | succ f ih =>
    obtain ⟨ihV, ihI, ihM⟩ := ih
    refine ⟨?_, ?_, ?_⟩
    · -- one value
      intro v rest hs hrest
      cases v with
      | null =>
        show parseVal (f + 1) ('n' :: (jstr "ull" ++ rest)) = some (Json.null, rest)
        rw [parseVal.eq_def]
        simp [skipWs_cons, jsonWs, expectChars_exact]
      | bool b =>
        cases b with
        | true =>
          show parseVal (f + 1) ('t' :: (jstr "rue" ++ rest)) = some (Json.bool true, rest)
          rw [parseVal.eq_def]
          simp [skipWs_cons, jsonWs, expectChars_exact]
        | false =>
          show parseVal (f + 1) ('f' :: (jstr "alse" ++ rest)) = some (Json.bool false, rest)
          rw [parseVal.eq_def]
          simp [skipWs_cons, jsonWs, expectChars_exact]
      | num n =>
        rw [stringify_num]
        by_cases hneg : n < 0
        · rw [show intChars n = '-' :: natChars n.natAbs from by rw [intChars]; simp [hneg]]
          simp only [List.cons_append]
          rw [parseVal.eq_def]
          have habs : ((n.natAbs : Int)) = -n := Int.ofNat_natAbs_of_nonpos (le_of_lt hneg)
          simp [skipWs_cons, jsonWs, parseNat_natChars _ _ hrest, habs]
        · rw [show intChars n = natChars n.natAbs from by rw [intChars]; simp [hneg]]
          obtain ⟨c, t, hct, hcd⟩ := natChars_head n.natAbs
          obtain ⟨hws, _, _, hn', ht', hf', hq', hb', hob', hm'⟩ := digit_head_props hcd
          rw [hct]
          simp only [List.cons_append]
          rw [parseVal.eq_def]
          have habs : ((n.natAbs : Int)) = n := Int.natAbs_of_nonneg (by omega)
          have hpn : parseNat (c :: (t ++ rest)) = some (n.natAbs, rest) := by
            rw [show c :: (t ++ rest) = (c :: t) ++ rest from rfl, ← hct]
            exact parseNat_natChars _ _ hrest
          simp [skipWs_cons, hws, hn', ht', hf', hq', hb', hob', hm', hcd, hpn, habs]
      | str s =>
        rw [stringify_str]
        show parseVal (f + 1) ('"' :: ((escapeChars s ++ ['"']) ++ rest)) = _
        rw [show (escapeChars s ++ ['"']) ++ rest = escapeChars s ++ '"' :: rest from by
          simp]
        rw [parseVal.eq_def]
        simp [skipWs_cons, jsonWs, parseStrBody_escapeChars s rest]
      | arr xs =>
        rw [stringify_arr]
        cases xs with
        | nil =>
          show parseVal (f + 1) ('[' :: (stringifyItems [] ++ [']']) ++ rest) = _
          rw [show stringifyItems [] = [] from by decide]
          show parseVal (f + 1) ('[' :: (']' :: rest)) = _
          rw [parseVal.eq_def]
          simp [skipWs_cons, jsonWs]
        | cons x xs2 =>
          have hsz : jsizeItems (x :: xs2) ≤ f := by
            rw [jsize_arr] at hs
            omega
          obtain ⟨c, cs, hc, hws, hrb, _⟩ := stringifyItems_cons_head x xs2
          rw [show ('[' :: (stringifyItems (x :: xs2) ++ [']'])) ++ rest
              = '[' :: (stringifyItems (x :: xs2) ++ ']' :: rest) from by simp, hc]
          simp only [List.cons_append]
          rw [parseVal.eq_def]
          have hit : parseItems f (c :: (cs ++ ']' :: rest)) = some (x :: xs2, rest) := by
            rw [show c :: (cs ++ ']' :: rest) = (c :: cs) ++ ']' :: rest from rfl, ← hc]
            exact ihI (x :: xs2) rest (by simp) hsz
          have hwb : jsonWs '[' = false := by decide
          simp [skipWs_cons, hwb, hws, hrb, hit]
      | obj ms =>
        rw [stringify_obj]
        cases ms with
        | nil =>
          show parseVal (f + 1) ('{' :: (stringifyMembers [] ++ ['\x7d']) ++ rest) = _
          rw [show stringifyMembers [] = [] from by decide]
          show parseVal (f + 1) ('{' :: ('\x7d' :: rest)) = _
          rw [parseVal.eq_def]
          simp [skipWs_cons, jsonWs]
        | cons m ms2 =>
          have hsz : jsizeMembers (m :: ms2) ≤ f := by
            rw [jsize_obj] at hs
            omega
          obtain ⟨cs, hc⟩ := stringifyMembers_cons_head m ms2
          rw [show ('{' :: (stringifyMembers (m :: ms2) ++ ['\x7d'])) ++ rest
              = '{' :: (stringifyMembers (m :: ms2) ++ '\x7d' :: rest) from by simp, hc]
          simp only [List.cons_append]
          rw [parseVal.eq_def]
          have hmm : parseMembers f ('"' :: (cs ++ '\x7d' :: rest)) = some (m :: ms2, rest) := by
            rw [show '"' :: (cs ++ '\x7d' :: rest) = ('"' :: cs) ++ '\x7d' :: rest from rfl,
              ← hc]
            exact ihM (m :: ms2) rest (by simp) hsz
          have hwb : jsonWs '{' = false := by decide
          have hwq : jsonWs '"' = false := by decide
          simp [skipWs_cons, hwb, hwq, hmm]
    · -- array items
      intro xs rest hne hsz
      cases xs with
      | nil => exact absurd rfl hne
      | cons x xs2 =>
        rw [jsizeItems_cons] at hsz
        cases xs2 with
        | nil =>
          have hz : jsizeItems ([] : List Json) = 0 := by decide
          rw [parseItems.eq_def, stringifyItems_single]
          have h1 := ihV x (']' :: rest) (by omega) (headNotDigit_cons _ _ (by decide))
          simp [h1, skipWs_cons, jsonWs]
        | cons y ys =>
          have hx : 1 ≤ jsize x := jsize_pos x
          have hy : 1 ≤ jsizeItems (y :: ys) := by rw [jsizeItems_cons]; omega
          rw [parseItems.eq_def, stringifyItems_cons2]
          rw [show (stringify x ++ ',' :: stringifyItems (y :: ys)) ++ ']' :: rest
              = stringify x ++ ',' :: (stringifyItems (y :: ys) ++ ']' :: rest) from by simp]
          have h1 := ihV x (',' :: (stringifyItems (y :: ys) ++ ']' :: rest)) (by omega)
            (headNotDigit_cons _ _ (by decide))
          have h2 := ihI (y :: ys) rest (by simp) (by omega)
          simp [h1, h2, skipWs_cons, jsonWs]
    · -- object members
      intro ms rest hne hsz
      cases ms with
      | nil => exact absurd rfl hne
      | cons m ms2 =>
        obtain ⟨k, v⟩ := m
        rw [jsizeMembers_cons] at hsz
        dsimp only at hsz
        cases ms2 with
        | nil =>
          have hz : jsizeMembers ([] : List (JStr × Json)) = 0 := by decide
          rw [parseMembers.eq_def, stringifyMembers_single]
          rw [show ('"' :: (escapeChars k ++ '"' :: ':' :: stringify v)) ++ '\x7d' :: rest
              = '"' :: (escapeChars k ++ '"' :: (':' :: (stringify v ++ '\x7d' :: rest)))
            from by simp]
          have h1 := ihV v ('\x7d' :: rest) (by omega)
            (headNotDigit_cons _ _ (by decide))
          simp [h1, skipWs_cons, jsonWs, parseStrBody_escapeChars]
        | cons m2 ms3 =>
          have hv : 1 ≤ jsize v := jsize_pos v
          rw [parseMembers.eq_def, stringifyMembers_cons2]
          rw [show (('"' :: (escapeChars k ++ '"' :: ':' :: stringify v))
                ++ ',' :: stringifyMembers (m2 :: ms3)) ++ '\x7d' :: rest
              = '"' :: (escapeChars k ++ '"' :: (':' :: (stringify v
                ++ ',' :: (stringifyMembers (m2 :: ms3) ++ '\x7d' :: rest))))
            from by simp]
          have h1 := ihV v (',' :: (stringifyMembers (m2 :: ms3) ++ '\x7d' :: rest))
            (by omega) (headNotDigit_cons _ _ (by decide))
          have h2 := ihM (m2 :: ms3) rest (by simp) (by omega)
          simp [h1, h2, skipWs_cons, jsonWs, parseStrBody_escapeChars]

mutual

theorem jsize_le_len (v : Json) : jsize v ≤ (stringify v).length := by
  cases v with
  | null => decide
  | bool b => cases b <;> decide
  | num n =>
    rw [stringify_num, jsize_num]
    rcases natChars_head n.natAbs with ⟨c, t, hct, _⟩
    rw [intChars]
    split <;> simp [hct]
  | str s => rw [stringify_str, jsize.eq_def]; simp
  | arr xs =>
    rw [stringify_arr, jsize_arr]
    have h := jsizeItems_le_len xs
    simp
    omega
  | obj ms =>
    rw [stringify_obj, jsize_obj]
    have h := jsizeMembers_le_len ms
    simp
    omega

theorem jsizeItems_le_len (xs : List Json) :
    jsizeItems xs ≤ (stringifyItems xs).length + 1 := by
  cases xs with
  | nil => simp [jsizeItems.eq_def, stringifyItems.eq_def]
  | cons x xs2 =>
    rw [jsizeItems_cons]
    have hx := jsize_le_len x
    cases xs2 with
    | nil =>
      rw [stringifyItems_single]
      simp [jsizeItems.eq_def]
      omega
    | cons y ys =>
      rw [stringifyItems_cons2]
      have ht := jsizeItems_le_len (y :: ys)
      simp
      omega

theorem jsizeMembers_le_len (ms : List (JStr × Json)) :
    jsizeMembers ms ≤ (stringifyMembers ms).length + 1 := by
  cases ms with
  | nil => simp [jsizeMembers.eq_def, stringifyMembers.eq_def]
  | cons m ms2 =>
    obtain ⟨k, v⟩ := m
    rw [jsizeMembers_cons]
    have hv := jsize_le_len v
    cases ms2 with
    | nil =>
      rw [stringifyMembers_single]
      simp [jsizeMembers.eq_def]
      omega
    | cons m2 ms3 =>
      rw [stringifyMembers_cons2]
      have ht := jsizeMembers_le_len (m2 :: ms3)
      simp
      omega

end

/-- Round trip of the modelled JSON builtins: parsing a rendering
recovers the value. -/
theorem parseJson_stringify (v : Json) : parseJson (stringify v) = some v := by
  unfold parseJson
  have h := (parse_stringify_all ((stringify v).length + 1)).1 v []
    (by have := jsize_le_len v; omega) (by intro c hc; simp at hc)
  rw [List.append_nil] at h
  rw [h]
  simp [skipWs]

/-! ## Lemmas: decoding inverts encoding -/

theorem decodeSuggestionResponse_encode (r : BrewSuggestionResponse) :
    decodeSuggestionResponse (encodeSuggestionResponse r) = some r := by
  obtain ⟨text, g, w, st, ub, bt⟩ := r
  cases g <;> cases w <;> cases st <;> cases bt <;> rfl

theorem decodeBrew_encode (b : Brew) : decodeBrew (encodeBrew b) = some b := by
  obtain ⟨i, ts, bn, st, ub, bt, gs, wt, rt, no, bd, gr⟩ := b
  cases bt <;> cases bd <;> cases gr <;> rfl

theorem decodeBrewList_encode (l : List Brew) :
    decodeBrewList (encodeBrewList l) = some l := by
  induction l with
  | nil => rfl
  | cons b t ih =>
    show List.mapM decodeBrew (List.map encodeBrew (b :: t)) = some (b :: t)
    rw [List.map_cons, List.mapM_cons, decodeBrew_encode]
    have ih2 : List.mapM decodeBrew (List.map encodeBrew t) = some t := ih
    rw [ih2]
    rfl

/-! ## Lemmas: lastIndexOf, trim and the regex models -/

theorem lastIdxAux_eq_some {s pat : JStr} {k : Nat}
    (hk : occursAt s pat k = true)
    (hlast : ∀ j, k < j → occursAt s pat j = false) :
    ∀ m, k ≤ m → lastIdxAux s pat m = some k := by
  intro m
  induction m with
  | zero =>
    intro h
    have hk0 : k = 0 := by omega
    subst hk0
    simp [lastIdxAux, hk]
  | succ m ih =>
    intro h
    by_cases he : k = m + 1
    · subst he
      simp [lastIdxAux, hk]
    · have h2 : occursAt s pat (m + 1) = false := hlast _ (by omega)
      simp only [lastIdxAux, h2, Bool.false_eq_true, if_false]
      exact ih (by omega)

theorem lastIdxAux_sound {s pat : JStr} :
    ∀ m k, lastIdxAux s pat m = some k → occursAt s pat k = true := by
  intro m
  induction m with
  | zero =>
    intro k h
    by_cases hif : occursAt s pat 0 = true
    · simp [lastIdxAux, hif] at h
      subst h
      exact hif
    · simp [lastIdxAux, hif] at h
  | succ m ih =>
    intro k h
    by_cases hif : occursAt s pat (m + 1) = true
    · simp [lastIdxAux, hif] at h
      subst h
      exact hif
    · simp only [lastIdxAux, hif, Bool.false_eq_true, if_false] at h
      exact ih k h

theorem jsLastIndexOf_eq {s pat : JStr} {k : Nat} (hk : occursAt s pat k = true)
    (hlast : ∀ j, k < j → occursAt s pat j = false) (hkm : k ≤ s.length) :
    jsLastIndexOf s pat = some k :=
  lastIdxAux_eq_some hk hlast _ hkm

theorem occursAt_le {s pat : JStr} {i : Nat} (h : occursAt s pat i = true)
    (hp : pat ≠ []) : i < s.length + 1 := by
  by_contra hlt
  push_neg at hlt
  have hd : s.drop i = [] := List.drop_eq_nil_of_le (by omega)
  rw [occursAt, hd] at h
  cases pat with
  | nil => exact hp rfl
  | cons c t => simp [List.isPrefixOf] at h

theorem occursAt_append (pre pat post : JStr) :
    occursAt (pre ++ pat ++ post) pat pre.length = true := by
  rw [occursAt, List.append_assoc, List.drop_left]
  exact List.isPrefixOf_iff_prefix.mpr (List.prefix_append pat post)

theorem no_later_occ_of_bounded {s pat : JStr} {k : Nat} (hp : pat ≠ [])
    (h : ∀ j ∈ List.range (s.length + 1), k < j → occursAt s pat j = false) :
    ∀ j, k < j → occursAt s pat j = false := by
  intro j hj
  by_cases hin : j < s.length + 1
  · exact h j (List.mem_range.mpr hin) hj
  · cases hocc : occursAt s pat j with
    | false => rfl
    | true => exact absurd (occursAt_le hocc hp) hin

theorem no_brace_tail_of_bounded {s pat : JStr} (hp : pat ≠ [])
    (h : ∀ i ∈ List.range (s.length + 1), occursAt s pat i = true →
        endsWithChar (jsTrim (s.drop i)) '\x7d' = false) :
    ∀ i, occursAt s pat i = true → endsWithChar (jsTrim (s.drop i)) '\x7d' = false := by
  intro i hocc
  exact h i (List.mem_range.mpr (occursAt_le hocc hp)) hocc

theorem head_dropWhile_not {p : Char → Bool} (l : JStr) :
    ∀ c, (l.dropWhile p).head? = some c → p c = false := by
  induction l with
  | nil => intro c h; simp at h
  | cons a t ih =>
    intro c h
    rw [List.dropWhile_cons] at h
    split at h
    · exact ih c h
    · rename_i hp
      simp only [List.head?_cons, Option.some.injEq] at h
      subst h
      simpa using hp

theorem suffix_getLast?_eq {l1 l2 : JStr} (h : l1 <:+ l2) (hne : l1 ≠ []) :
    l1.getLast? = l2.getLast? := by
  obtain ⟨t, rfl⟩ := h
  rcases hl : l1.getLast? with _ | c
  · rw [List.getLast?_eq_none_iff] at hl
    exact absurd hl hne
  · rw [List.getLast?_append, hl]
    rfl

theorem jsTrim_head (s : JStr) : ∀ c, (jsTrim s).head? = some c → jsWs c = false := by
  intro c h
  rw [jsTrim, List.head?_reverse] at h
  have hBne : ((s.dropWhile jsWs).reverse.dropWhile jsWs) ≠ [] := by
    intro he
    rw [he] at h
    simp at h
  have h2 : ((s.dropWhile jsWs).reverse.dropWhile jsWs).getLast?
      = (s.dropWhile jsWs).reverse.getLast? :=
    suffix_getLast?_eq (List.dropWhile_suffix _) hBne
  rw [h2, List.getLast?_reverse] at h
  exact head_dropWhile_not s c h

theorem jsTrim_getLast (s : JStr) : ∀ c, (jsTrim s).getLast? = some c → jsWs c = false := by
  intro c h
  rw [jsTrim, List.getLast?_reverse] at h
  exact head_dropWhile_not _ c h

theorem jsTrim_eq_self {l : JStr} (hh : ∀ c, l.head? = some c → jsWs c = false)
    (hl : ∀ c, l.getLast? = some c → jsWs c = false) : jsTrim l = l := by
  rw [jsTrim]
  have h1 : l.dropWhile jsWs = l := by
    cases l with
    | nil => rfl
    | cons a t => rw [List.dropWhile_cons, if_neg (by simp [hh a rfl])]
  rw [h1]
  have h2 : l.reverse.dropWhile jsWs = l.reverse := by
    cases hrev : l.reverse with
    | nil => rfl
    | cons a t =>
      have ha : l.getLast? = some a := by rw [← List.head?_reverse, hrev]; rfl
      rw [List.dropWhile_cons, if_neg (by simp [hl a ha])]
  rw [h2, List.reverse_reverse]

theorem jsTrim_idem (s : JStr) : jsTrim (jsTrim s) = jsTrim s :=
  jsTrim_eq_self (jsTrim_head s) (jsTrim_getLast s)

theorem findIdx?_aux {p : Char → Bool} :
    ∀ (pre : JStr) (c : Char) (post : JStr) (i : Nat),
      (∀ x ∈ pre, p x = false) → p c = true →
      List.findIdx? p (pre ++ c :: post) i = some (i + pre.length) := by
  intro pre
  induction pre with
  | nil => intro c post i _ hc; simp [List.findIdx?_cons, hc]
  | cons a t ih =>
    intro c post i hpre hc
    rw [List.cons_append, List.findIdx?_cons, if_neg (by simp [hpre a (by simp)])]
    rw [ih c post (i + 1) (fun x hx => hpre x (by simp [hx])) hc]
    simp
    omega

/-! ## The claims -/

/-- Claim C5 (confirmed): deleting the equipment record whose id is the
currently stored default pointer removes the pointer key from storage,
and every delete preserves the invariant that a present pointer names an
id still in the equipment document — for brew devices and for grinders,
with the component state mirroring storage as loadData leaves it. -/
theorem claim_C5 :
    (∀ st sto id, brewDeviceSync st sto → sto.defaultBrewDeviceKey = some id →
      (handleRemoveBrewDevice st sto id).2.defaultBrewDeviceKey = none) ∧
    (∀ st sto id, brewDeviceSync st sto → brewDevicePointerValid sto →
      brewDevicePointerValid (handleRemoveBrewDevice st sto id).2) ∧
    (∀ st sto id, grinderSync st sto → sto.defaultGrinderKey = some id →
      (handleRemoveGrinder st sto id).2.defaultGrinderKey = none) ∧
    (∀ st sto id, grinderSync st sto → grinderPointerValid sto →
      grinderPointerValid (handleRemoveGrinder st sto id).2) := by
  refine ⟨?_, ?_, ?_, ?_⟩
  · intro st sto id hsync hkey
    obtain ⟨hdocs, hdef⟩ := hsync
    rw [hkey] at hdef
    obtain ⟨hd, hne⟩ := hdef
    rw [handleRemoveBrewDevice]
    rw [if_pos hd]
  · intro st sto id hsync hvalid
    obtain ⟨hdocs, hdef⟩ := hsync
    rw [handleRemoveBrewDevice]
    split
    · intro d hd
      simp at hd
    · rename_i hneq
      intro d hd
      simp only at hd
      obtain ⟨dev, hmem, hid⟩ := hvalid d hd
      rw [hd] at hdef
      obtain ⟨hst, hdne⟩ := hdef
      refine ⟨dev, ?_, hid⟩
      rw [List.mem_filter]
      refine ⟨by rw [hdocs]; exact hmem, ?_⟩
      simp only [decide_eq_true_iff]
      intro he
      exact hneq (by rw [hst, ← hid, he])
  · intro st sto id hsync hkey
    obtain ⟨hdocs, hdef⟩ := hsync
    rw [hkey] at hdef
    obtain ⟨hd, hne⟩ := hdef
    rw [handleRemoveGrinder]
    rw [if_pos hd]
  · intro st sto id hsync hvalid
    obtain ⟨hdocs, hdef⟩ := hsync
    rw [handleRemoveGrinder]
    split
    · intro d hd
      simp at hd
    · rename_i hneq
      intro d hd
      simp only at hd
      obtain ⟨dev, hmem, hid⟩ := hvalid d hd
      rw [hd] at hdef
      obtain ⟨hst, hdne⟩ := hdef
      refine ⟨dev, ?_, hid⟩
      rw [List.mem_filter]
      refine ⟨by rw [hdocs]; exact hmem, ?_⟩
      simp only [decide_eq_true_iff]
      intro he
      exact hneq (by rw [hst, ← hid, he])

/-- Witness for C5: deleting the default device clears the stored
pointer in a concrete synced state. -/
theorem claim_C5_witness :
    (handleRemoveBrewDevice
      ⟨[⟨jstr "1", jstr "Hario Switch", jstr "Pour Over", none⟩], [], jstr "1", []⟩
      ⟨[⟨jstr "1", jstr "Hario Switch", jstr "Pour Over", none⟩], [], some (jstr "1"), none⟩
      (jstr "1")).2.defaultBrewDeviceKey = none :=
  claim_C5.1 _ _ _ ⟨rfl, rfl, by decide⟩ rfl

/-- Claim C8 (confirmed): with no valid credential — no non-empty,
non-placeholder environment value and no non-empty persisted value —
makeOpenAICall yields the missing-credential error and the provided
network call function never runs; conversely the call runs only when a
credential resolved. -/
theorem claim_C8 :
    (∀ (α : Type) (envKey storedKey : Option JStr) (callFunction : JStr → Except String α),
      (∀ k, envKey = some k → k = [] ∨ k = placeholderApiKey) →
      (∀ k, storedKey = some k → k = []) →
      (makeOpenAICall envKey storedKey callFunction).outcome
          = Except.error missingKeyError ∧
        (makeOpenAICall envKey storedKey callFunction).networkCallMade = false) ∧
    (∀ (α : Type) (envKey storedKey : Option JStr) (callFunction : JStr → Except String α),
      (makeOpenAICall envKey storedKey callFunction).networkCallMade = true →
      ∃ k, getApiKeyInternal envKey storedKey = some k) := by
  constructor
  · intro α envKey storedKey callFunction henv hstored
    have hstored' : storedApiKeyLookup storedKey = none := by
      cases storedKey with
      | none => rfl
      | some k =>
        have hk := hstored k rfl
        subst hk
        simp [storedApiKeyLookup]
    have hkey : getApiKeyInternal envKey storedKey = none := by
      cases envKey with
      | none => simpa [getApiKeyInternal] using hstored'
      | some k =>
        rcases henv k rfl with h | h
        · subst h
          simpa [getApiKeyInternal] using hstored'
        · subst h
          simpa [getApiKeyInternal] using hstored'
    rw [makeOpenAICall, hkey]
    exact ⟨rfl, rfl⟩
  · intro α envKey storedKey callFunction h
    rw [makeOpenAICall] at h
    cases hkey : getApiKeyInternal envKey storedKey with
    | none =>
      rw [hkey] at h
      simp at h
    | some k => exact ⟨k, rfl⟩

/-- Witness for C8: with no environment and no persisted key the wrapper
errors without invoking the call function. -/
theorem claim_C8_witness :
    (makeOpenAICall none none (fun _ => Except.ok (0 : Nat))).outcome
        = Except.error missingKeyError ∧
      (makeOpenAICall none none (fun _ => Except.ok (0 : Nat))).networkCallMade = false :=
  claim_C8.1 Nat none none (fun _ => Except.ok 0)
    (fun _ h => by cases h) (fun _ h => by cases h)

/-- Claim C10 (confirmed): with a falsy beanName, grindSize or waterTemp
the save handler alerts and returns before touching storage: no storage
operation runs and the stored brews document is unchanged. -/
theorem claim_C10 (form : BrewFormState) (now : Int) (stored : Option JStr)
    (h : form.beanName = none ∨ form.beanName = some [] ∨ form.grindSize = [] ∨
      form.waterTemp = []) :
    handleSaveBrew form now stored = (stored, SaveOutcome.missingInfoAlert, []) := by
  rw [handleSaveBrew, if_pos h]

/-- Witness for C10 at a form with an empty grind size. -/
theorem claim_C10_witness :
    handleSaveBrew ⟨some (jstr "Yirgacheffe"), 180, false, [], [], jstr "96", 5, [], [], []⟩
      7 (some (jstr "[]"))
      = (some (jstr "[]"), SaveOutcome.missingInfoAlert, []) :=
  claim_C10 _ _ _ (Or.inr (Or.inr (Or.inl rfl)))

/-- Claim C1 (corrected) counterexample: a narrative ending in a space
followed by the embedded parameter JSON.  The trailing segment starts at
the last marker occurrence (index 11) and trim-ends with a closing
brace, so the claim applies; the cleanup returns the narrative trimmed
to "Nice brew.", not intact as "Nice brew. ". -/
theorem claim_C1_counterexample :
    jsLastIndexOf (jstr "Nice brew. ,\"suggestedGrindSize\":null\x7d") grindMarker
        = some 11 ∧
      endsWithChar
        (jsTrim ((jstr "Nice brew. ,\"suggestedGrindSize\":null\x7d").drop 11)) '\x7d'
        = true ∧
      (cleanSuggestionResponse
          ⟨jstr "Nice brew. ,\"suggestedGrindSize\":null\x7d",
            none, none, none, false, none⟩).suggestionText = jstr "Nice brew." ∧
      jstr "Nice brew." ≠ jstr "Nice brew. " := by
  refine ⟨?_, ?_, ?_, ?_⟩ <;> decide

/-- Claim C1 (amended): when the suggestionText is a narrative followed
by the structured parameter JSON — the segment starting at the last
marker occurrence, trim-ending in a closing brace — the cleanup removes
that trailing segment and returns the preceding narrative with its
surrounding whitespace trimmed (provided the trimmed narrative does not
itself start with the parameters-only marker), all other fields
unchanged. -/
theorem claim_C1_amended (r : BrewSuggestionResponse) (narrative tail0 : JStr)
    (hs : r.suggestionText = narrative ++ grindMarker ++ tail0)
    (hlast : ∀ j, narrative.length < j → occursAt r.suggestionText grindMarker j = false)
    (hend : endsWithChar (jsTrim (grindMarker ++ tail0)) '\x7d' = true)
    (hstart : jsonOnlyMarker.isPrefixOf (jsTrim narrative) = false) :
    cleanSuggestionResponse r = { r with suggestionText := jsTrim narrative } := by
  have hocc : occursAt r.suggestionText grindMarker narrative.length = true := by
    rw [hs]
    exact occursAt_append _ _ _
  have hkm : narrative.length ≤ r.suggestionText.length := by
    rw [hs]
    simp [List.length_append]
  have hidx : jsLastIndexOf r.suggestionText grindMarker = some narrative.length :=
    jsLastIndexOf_eq hocc hlast hkm
  have hdrop : r.suggestionText.drop narrative.length = grindMarker ++ tail0 := by
    rw [hs, List.append_assoc, List.drop_left]
  have htake : r.suggestionText.take narrative.length = narrative := by
    rw [hs, List.append_assoc, List.take_left]
  simp only [cleanSuggestionResponse, hidx, hdrop, htake, hend, if_true,
    jsTrim_idem, hstart, Bool.false_eq_true, if_false]

/-- Witness for the amended C1 at a concrete response. -/
theorem claim_C1_witness :
    cleanSuggestionResponse
        ⟨jstr "Nice brew. ,\"suggestedGrindSize\":null\x7d",
          some (jstr "Fine"), none, some 180, true, some 30⟩
      = ⟨jstr "Nice brew.", some (jstr "Fine"), none, some 180, true, some 30⟩ := by
  have h := claim_C1_amended
    ⟨jstr "Nice brew. ,\"suggestedGrindSize\":null\x7d",
      some (jstr "Fine"), none, some 180, true, some 30⟩
    (jstr "Nice brew. ") (jstr "null\x7d") (by decide)
    (no_later_occ_of_bounded (by decide) (by decide)) (by decide) (by decide)
  rw [h]
  decide

/-- Claim C2 (corrected) counterexample: a response that is not valid
JSON and contains a substring matching the fallback pattern, but whose
(first) quoted value is empty.  The empty capture is falsy in the
source's guard, so the call throws instead of returning the extracted
text with null fields. -/
theorem claim_C2_counterexample :
    parseJson (jstr "oops \"suggestionText\": \"\" rest") = none ∧
      (firstSuggestionMatch (jstr "oops \"suggestionText\": \"\" rest")).isSome = true ∧
      processSuggestionContent (jstr "oops \"suggestionText\": \"\" rest")
        = Except.error suggestionExtractFailure :=
  ⟨rfl, rfl, rfl⟩

/-- Claim C2 (amended): for a response string that is not valid JSON
whose first fallback-regex match captures a non-empty quoted value, the
pipeline returns that captured text with all structured fields
null and the bloom flag false. -/
theorem claim_C2_amended (content g : JStr)
    (hjson : parseJson content = none)
    (hmatch : firstSuggestionMatch content = some g)
    (hne : g ≠ []) :
    processSuggestionContent content = Except.ok ⟨g, none, none, none, false, none⟩ := by
  rw [processSuggestionContent, hjson]
  simp only [Option.bind, hmatch]
  rw [if_neg (by simpa [List.isEmpty_iff] using hne)]

/-- Witness for the amended C2 at a concrete malformed response. -/
theorem claim_C2_witness :
    processSuggestionContent (jstr "oops \"suggestionText\": \"hello world\" rest")
      = Except.ok ⟨jstr "hello world", none, none, none, false, none⟩ :=
  claim_C2_amended _ _ rfl rfl (by decide)

/-- Claim C3 (confirmed): a response that is neither valid JSON nor
contains a fallback-regex match makes the pipeline throw the extraction
error; no partially populated result is returned. -/
theorem claim_C3 (content : JStr)
    (hjson : parseJson content = none)
    (hmatch : firstSuggestionMatch content = none) :
    processSuggestionContent content = Except.error suggestionExtractFailure := by
  rw [processSuggestionContent, hjson]
  simp only [Option.bind, hmatch]

/-- Witness for C3 at a concrete garbage response. -/
theorem claim_C3_witness :
    processSuggestionContent (jstr "garbage") = Except.error suggestionExtractFailure :=
  claim_C3 _ rfl rfl

/-- Claim C4 (confirmed): a well-formed structured response — every
field present, the narrative free of a marker occurrence whose tail
trim-ends in a closing brace and not starting (after a trim) with the
parameters-only marker — decodes to exactly its fields, unchanged by the
cleanup. -/
theorem claim_C4 (r : BrewSuggestionResponse)
    (h1 : ∀ i, occursAt r.suggestionText grindMarker i = true →
        endsWithChar (jsTrim (r.suggestionText.drop i)) '\x7d' = false)
    (h2 : jsonOnlyMarker.isPrefixOf (jsTrim r.suggestionText) = false) :
    processSuggestionContent (stringify (encodeSuggestionResponse r)) = Except.ok r := by
  have hclean : cleanSuggestionResponse r = r := by
    rw [cleanSuggestionResponse]
    cases hidx : jsLastIndexOf r.suggestionText grindMarker with
    | none => simp [h2]
    | some i =>
      have hocc : occursAt r.suggestionText grindMarker i = true :=
        lastIdxAux_sound _ _ hidx
      simp [h1 i hocc, h2]
  rw [processSuggestionContent, parseJson_stringify]
  simp only [Option.bind, decodeSuggestionResponse_encode, hclean]

/-- Witness for C4 at a concrete well-formed structured response. -/
theorem claim_C4_witness :
    processSuggestionContent
        (stringify (encodeSuggestionResponse
          ⟨jstr "Try a finer grind.", some (jstr "17 clicks"), some (jstr "96C"),
            some 180, true, some 30⟩))
      = Except.ok
          ⟨jstr "Try a finer grind.", some (jstr "17 clicks"), some (jstr "96C"),
            some 180, true, some 30⟩ :=
  claim_C4 _ (no_brace_tail_of_bounded (by decide) (by decide)) (by decide)

/-- Claim C6 (confirmed): saving a brew with a non-empty bean name over
an existing encoded document and reloading yields the prior records
(subjected only to the loader's empty-name fixup) with the new record
appended unchanged; saving over an absent document yields exactly the
new record. -/
theorem claim_C6 (b : Brew) (l : List Brew) (hbean : b.beanName ≠ []) :
    loadBrews (handleSaveBrewWrite (some (stringify (encodeBrewList l))) b).1
        = l.map fixLoadedBrew ++ [b] ∧
      loadBrews (handleSaveBrewWrite none b).1 = [b] := by
  have hfix : fixLoadedBrew b = b := by
    simp [fixLoadedBrew, hbean]
  constructor
  · simp [handleSaveBrewWrite, loadBrews, parseJson_stringify, decodeBrewList_encode, hfix]
  · simp [handleSaveBrewWrite, loadBrews, parseJson_stringify, decodeBrewList_encode, hfix]

/-- Witness for C6: the Yirgacheffe example record round-trips through
save and load over an empty document. -/
theorem claim_C6_witness :
    loadBrews (handleSaveBrewWrite (some (stringify (encodeBrewList [])))
        ⟨jstr "1", 0, jstr "Yirgacheffe", 180, false, none, jstr "Medium",
          jstr "96°C", 8, [], none, none⟩).1
      = [⟨jstr "1", 0, jstr "Yirgacheffe", 180, false, none, jstr "Medium",
          jstr "96°C", 8, [], none, none⟩] := by
  have h := claim_C6
    ⟨jstr "1", 0, jstr "Yirgacheffe", 180, false, none, jstr "Medium",
      jstr "96°C", 8, [], none, none⟩ [] (by decide)
  simpa using h.1

/-- Claim C7 (confirmed): for a truthy (non-empty) selected bean name,
the historical brews embedded in the prompt number at most five, each is
a previous brew whose bean name matches the selected bean
case-insensitively, and they are ranked by rating highest first;
equipment names resolve by id lookup in the stored document, and with no
id set the candidates are exactly the records whose name occurs
case-insensitively in the brew's free-text notes. -/
theorem claim_C7 (previousBrews : List Brew) (sel rid : JStr) (hsel : sel ≠ [])
    (dev : Equipment) (items : List Equipment) (hrid : rid ≠ [])
    (hfind : items.find? (fun it => it.id == rid) = some dev)
    (hname : dev.name ≠ []) (notes : JStr) (hnotes : notes ≠ [])
    (eqItems : List Equipment) :
    (relevantBrews previousBrews (some sel)).length ≤ 5 ∧
      (∀ b ∈ relevantBrews previousBrews (some sel),
        b ∈ previousBrews ∧ jsLower b.beanName = jsLower sel) ∧
      (relevantBrews previousBrews (some sel)).Pairwise
        (fun a b => b.rating ≤ a.rating) ∧
      resolveEquipmentName (some rid) items = some dev.name ∧
      (∀ nm, nm ∈ possibleEquipmentNames none notes eqItems ↔
        ∃ it ∈ eqItems, jsIncludes (jsLower notes) (jsLower it.name) = true ∧
          it.name = nm) := by
  refine ⟨?_, ?_, ?_, ?_, ?_⟩
  · simp only [relevantBrews, List.length_take]
    exact min_le_left _ _
  · intro b hb
    have hb1 : b ∈ (previousBrews.filter (fun brew =>
        match (some sel : Option JStr) with
        | some s => if s = [] then true else jsLower brew.beanName == jsLower s
        | none => true)).mergeSort (fun a b => decide (b.rating ≤ a.rating)) :=
      List.mem_of_mem_take hb
    rw [List.mem_mergeSort, List.mem_filter] at hb1
    refine ⟨hb1.1, ?_⟩
    have h2 := hb1.2
    simpa [hsel] using h2
  · have hsorted := @List.sorted_mergeSort Brew
      (fun a b : Brew => decide (b.rating ≤ a.rating))
      (fun a b c hab hbc => by
        simp only [decide_eq_true_eq] at *
        omega)
      (fun a b => by
        simp only [Bool.or_eq_true, decide_eq_true_eq]
        omega)
      (previousBrews.filter (fun brew =>
        match (some sel : Option JStr) with
        | some s => if s = [] then true else jsLower brew.beanName == jsLower s
        | none => true))
    have hp := hsorted.sublist (List.take_sublist 5 _)
    exact hp.imp (fun h => by simpa using h)
  · rw [resolveEquipmentName]
    simp [hrid, hfind, hname]
  · intro nm
    rw [possibleEquipmentNames, if_pos ⟨rfl, hnotes⟩]
    simp only [List.mem_map, List.mem_filter]
    constructor
    · rintro ⟨it, ⟨hit, hinc⟩, hnm⟩
      exact ⟨it, hit, hinc, hnm⟩
    · rintro ⟨it, hit, hinc, hnm⟩
      exact ⟨it, ⟨hit, hinc⟩, hnm⟩

/-- Witness for C7: length bound and id resolution at concrete inputs. -/
theorem claim_C7_witness :
    (relevantBrews [] (some (jstr "Yirgacheffe"))).length ≤ 5 ∧
      resolveEquipmentName (some (jstr "d1")) [⟨jstr "d1", jstr "V60"⟩]
        = some (jstr "V60") := by
  have h := claim_C7 [] (jstr "Yirgacheffe") (jstr "d1") (by decide)
    ⟨jstr "d1", jstr "V60"⟩ [⟨jstr "d1", jstr "V60"⟩] (by decide) (by decide)
    (by decide) (jstr "used the kettle") (by decide) []
  exact ⟨h.1, h.2.2.2.1⟩

/-- Claim C9 (corrected) counterexample: a response whose text starts
with a valid brace-delimited JSON object followed by further text with a
second brace pair.  The greedy regex spans from the first opening brace
to the last closing brace, so the located text is not the first
brace-delimited object and the call throws even though that first object
parses. -/
theorem claim_C9_counterexample :
    parseJson (jstr "\x7b\"a\":1\x7d") = some (Json.obj [(jstr "a", Json.num 1)]) ∧
      (jstr "\x7b\"a\":1\x7d").isPrefixOf (jstr "\x7b\"a\":1\x7d x \x7b\"b\":2\x7d") = true ∧
      analyzeImageContent (some (jstr "\x7b\"a\":1\x7d x \x7b\"b\":2\x7d"))
        = Except.error parseImageError :=
  ⟨rfl, rfl, rfl⟩

/-- Claim C9 (amended): analyzeImage locates the greedy brace span of
the response text — from the first opening brace to the last closing
brace — parses that text, returning the parsed value and throwing on a
parse failure; it throws the no-content error when the response has no
message content. -/
theorem claim_C9_amended :
    (∀ a m b : JStr, (∀ c ∈ a, c ≠ '\x7b') → (∀ c ∈ b, c ≠ '\x7d') →
      analyzeImageContent (some (a ++ '\x7b' :: (m ++ '\x7d' :: b)))
        = match parseJson ('\x7b' :: (m ++ ['\x7d'])) with
          | some v => Except.ok v
          | none => Except.error parseImageError) ∧
      analyzeImageContent none = Except.error noContentError ∧
      analyzeImageContent (some []) = Except.error noContentError := by
  refine ⟨?_, rfl, rfl⟩
  intro a m b ha hb
  set s : JStr := a ++ '\x7b' :: (m ++ '\x7d' :: b) with hs
  have hs2 : s = ((a ++ '\x7b' :: m) ++ ['\x7d']) ++ b := by simp [hs]
  have hocc : occursAt s ['\x7d'] (a ++ '\x7b' :: m).length = true := by
    rw [hs2]
    exact occursAt_append _ _ _
  have hplen : ((a ++ '\x7b' :: m) ++ ['\x7d']).length = (a ++ '\x7b' :: m).length + 1 := by
    rw [List.length_append]
    rfl
  have hlast : ∀ j, (a ++ '\x7b' :: m).length < j → occursAt s ['\x7d'] j = false := by
    intro j hj
    cases hocc2 : occursAt s ['\x7d'] j with
    | false => rfl
    | true =>
      exfalso
      rw [occursAt, List.isPrefixOf_iff_prefix] at hocc2
      have hmem : '\x7d' ∈ s.drop j := hocc2.subset (by simp)
      have hj2 : j = ((a ++ '\x7b' :: m) ++ ['\x7d']).length
          + (j - ((a ++ '\x7b' :: m) ++ ['\x7d']).length) := by omega
      have hdropb : s.drop j
          = b.drop (j - ((a ++ '\x7b' :: m) ++ ['\x7d']).length) := by
        conv_lhs => rw [hs2, hj2, List.drop_append]
      rw [hdropb] at hmem
      exact hb _ (List.drop_subset _ _ hmem) rfl
  have hkm : (a ++ '\x7b' :: m).length ≤ s.length := by
    rw [hs2]
    simp
  have hidx : jsLastIndexOf s ['\x7d'] = some (a ++ '\x7b' :: m).length :=
    jsLastIndexOf_eq hocc hlast hkm
  have htake : s.take (a ++ '\x7b' :: m).length = a ++ '\x7b' :: m := by
    rw [hs2, List.append_assoc, List.take_left]
  have hfind : (a ++ '\x7b' :: m).findIdx? (fun c => c = '\x7b') = some a.length := by
    have hpre : ∀ x ∈ a, (fun c : Char => decide (c = '\x7b')) x = false := by
      intro x hx
      simp [ha x hx]
    have h0 := findIdx?_aux a '\x7b' m 0 hpre (by simp)
    simpa using h0
  have hdrop : s.drop a.length = '\x7b' :: (m ++ '\x7d' :: b) := by
    rw [hs, List.drop_left]
  have hjmi : (a ++ '\x7b' :: m).length - a.length + 1 = m.length + 2 := by
    simp [List.length_append]
  have hslice : ('\x7b' :: (m ++ '\x7d' :: b)).take (m.length + 2)
      = '\x7b' :: (m ++ ['\x7d']) := by
    rw [List.take_succ_cons]
    have hmb : m ++ '\x7d' :: b = (m ++ ['\x7d']) ++ b := by simp
    have hlen : m.length + 1 = (m ++ ['\x7d']).length := by simp
    rw [hmb, hlen, List.take_left]
  have hne : s.isEmpty = false := by
    rw [hs]
    cases a <;> simp
  simp only [analyzeImageContent, hne, Bool.false_eq_true, if_false, greedyBraceMatch,
    hidx, htake, hfind, hdrop, hjmi, hslice, Option.getD]

/-- Witness for the amended C9 at a response with leading and trailing
text around the brace span. -/
theorem claim_C9_witness :
    analyzeImageContent
        (some (jstr "note " ++ '\x7b' :: (jstr "\"a\":1" ++ '\x7d' :: jstr " end")))
      = Except.ok (Json.obj [(jstr "a", Json.num 1)]) := by
  have h := claim_C9_amended.1 (jstr "note ") (jstr "\"a\":1") (jstr " end")
    (by decide) (by decide)
  rw [h]
  rfl

end GoodCup
